import Mathlib

/-!
Verification of the zod-command CLI framework core (command registration,
argument tokenization, configuration merging, middleware chaining and
dispatch), shallowly embedded from the TypeScript source.
-/

set_option maxRecDepth 2000

namespace ZodCommand

/-! ### Association lists modelling JS objects / Maps

JS plain objects and `Map`s are string-keyed, insertion-ordered, with
overwrite-on-set semantics.  `setAssoc` updates the first occurrence in
place (keys are unique in any list built through it) and appends new keys
at the end, exactly like assignment to a JS object key / `Map.set`. -/

def getAssoc {α : Type} : List (String × α) → String → Option α
  | [], _ => none
  | (k', v') :: rest, k => if k' = k then some v' else getAssoc rest k

def setAssoc {α : Type} : List (String × α) → String → α → List (String × α)
  | [], k, v => [(k, v)]
  | (k', v') :: rest, k, v =>
    if k' = k then (k, v) :: rest else (k', v') :: setAssoc rest k v

/-! ### String helpers mirroring the JS string operations used by the source

JS strings are treated as their character sequences (`String.data`); all
helpers are structural recursions so that concrete runs reduce in the
kernel. -/

/-- JS `s.startsWith(pre)`. -/
def strStartsWith (s pre : String) : Bool :=
  pre.data.isPrefixOf s.data

/-- JS `s.slice(n)`. -/
def strDrop (s : String) (n : Nat) : String :=
  ⟨s.data.drop n⟩

/-- JS `s.includes("=")`. -/
def strContainsEq (s : String) : Bool :=
  s.data.contains '='

/-- Character-level split on `'='`, the full form of JS `s.split("=")`.
`split("=", 2)` keeps the first two elements of this list unchanged. -/
def splitEq : List Char → List (List Char)
  | [] => [[]]
  | ch :: rest =>
    if ch = '=' then [] :: splitEq rest
    else
      match splitEq rest with
      | [] => [[ch]]
      | p :: ps => (ch :: p) :: ps

/-- JS `s.split("=")` on strings. -/
def strSplitEq (s : String) : List String :=
  (splitEq s.data).map (fun l => ⟨l⟩)

/-- The whitespace class of the JS regex `\s` (ASCII part). -/
def jsIsSpace (ch : Char) : Bool :=
  ch = ' ' || ch = '\t' || ch = '\n' || ch = '\r' || ch = '\x0b' || ch = '\x0c'

/-- `s.replace(/\s+/g, ":")` at character level: each maximal run of
whitespace becomes a single `':'`.  The boolean records whether we are
inside a whitespace run. -/
def collapseWsAux : Bool → List Char → List Char
  | _, [] => []
  | inWs, ch :: rest =>
    if jsIsSpace ch then
      if inWs then collapseWsAux true rest
      else ':' :: collapseWsAux true rest
    else ch :: collapseWsAux false rest

/-- `Devtool.toInternalCommandFormat`: `command.replace(/\s+/g, ":")`. -/
def toInternalCommandFormat (s : String) : String :=
  ⟨collapseWsAux false s.data⟩

/-- JS `parts.join(" ")`. -/
def joinSpace : List String → String
  | [] => ""
  | [s] => s
  | s :: rest => s ++ " " ++ joinSpace rest

/-! ### The argument tokenizer (`Devtool.parseArgs`) -/

/-- An option value produced by the tokenizer: either a raw string or the
boolean `true` used for bare flags.  No other coercion happens here. -/
inductive OptVal
  | str (s : String)
  | boolTrue
deriving DecidableEq, Repr

structure ParseResult where
  command : String
  options : List (String × OptVal)
deriving DecidableEq, Repr

/-- The option-parsing loop of `Devtool.parseArgs` (the `for (; i < ...)`
loop): `--key=value` binds via `split("=", 2)`; a `--key` followed by
end-of-input or another `--` token binds `true`; a `--key` followed by a
plain token consumes it as the value; non-`--` tokens are skipped. -/
def parseOptionsAux (options : List (String × OptVal)) :
    List String → List (String × OptVal)
  | [] => options
  | arg :: rest =>
    if strStartsWith arg "--" then
      let flag := strDrop arg 2
      if strContainsEq flag then
        let parts := strSplitEq flag
        parseOptionsAux
          (setAssoc options (parts.headD "") (OptVal.str ((parts.drop 1).headD ""))) rest
      else
        match rest with
        | [] => setAssoc options flag OptVal.boolTrue
        | nxt :: rest' =>
          if strStartsWith nxt "--" then
            parseOptionsAux (setAssoc options flag OptVal.boolTrue) (nxt :: rest')
          else
            parseOptionsAux (setAssoc options flag (OptVal.str nxt)) rest'
    else parseOptionsAux options rest

/-- `Devtool.parseArgs`, with the Devtool's alias map passed explicitly. -/
def parseArgs (aliases : List (String × String)) (argv : List String) : ParseResult :=
  if argv.length < 3 then { command := "help", options := [] }
  else
    let processArgs := argv.drop 2
    if processArgs.contains "--help" || processArgs.contains "-h" then
      { command := "help", options := [] }
    else if processArgs.contains "--version" || processArgs.contains "-v" then
      { command := "version", options := [] }
    else
      let commandParts := processArgs.takeWhile (fun t => !strStartsWith t "--")
      let restArgs := processArgs.dropWhile (fun t => !strStartsWith t "--")
      let command := toInternalCommandFormat (joinSpace commandParts)
      if command = "help" && commandParts.length > 1 then
        { command := "help",
          options := [("command",
            OptVal.str (toInternalCommandFormat (joinSpace (commandParts.drop 1))))] }
      else
        let command' :=
          match getAssoc aliases command with
          | some t => if t = "" then command else t
          | none => command
        { command := command', options := parseOptionsAux [] restArgs }

/-! ### Configuration values and `ConfigManager` -/

/-- JSON-like configuration values as produced by config loaders, the
environment reader and the CLI tokenizer. -/
inductive JVal
  | null
  | bool (b : Bool)
  | num (n : Int)
  | str (s : String)
  | arr (xs : List JVal)
  | obj (fields : List (String × JVal))

/-- A configuration object (`ConfigObject` in the source). -/
abbrev Obj := List (String × JVal)

/-- The JS test `value !== null && typeof value === "object" &&
!Array.isArray(value)` from `ConfigManager.mergeConfig`. -/
def isMergeableObj : JVal → Bool
  | JVal.obj _ => true
  | _ => false

/-- What `{ ...(result[key] || {}) }` produces for an optional stored
value: objects spread to their fields, arrays and strings spread to
index-keyed fields, everything else (including a missing key and all
falsy values) to the empty object. -/
def jsSpread : Option JVal → Obj
  | some (JVal.obj fs) => fs
  | some (JVal.arr xs) =>
    (List.range xs.length).zip xs |>.map (fun p => (toString p.1, p.2))
  | some (JVal.str s) =>
    (List.range s.data.length).zip s.data |>.map (fun p => (toString p.1, JVal.str ⟨[p.2]⟩))
  | _ => []

/-- `ConfigManager.mergeConfig(target, source)`: for each key of the
source, a plain-object value is merged recursively into
`result[key] || {}`, any other value overwrites. -/
def mergeFields : Obj → Obj → Obj
  | res, [] => res
  | res, (k, v) :: rest =>
    match v with
    | JVal.obj fs =>
      mergeFields (setAssoc res k (JVal.obj (mergeFields (jsSpread (getAssoc res k)) fs))) rest
    | _ => mergeFields (setAssoc res k v) rest
termination_by _res src => sizeOf src
decreasing_by all_goals (simp_wf; try omega)

/-- The value stored by one `mergeConfig` step for key `k`: plain
objects are merged recursively into the current value, everything else
overwrites. -/
def mergeValInto (res : Obj) (k : String) (v : JVal) : JVal :=
  match v with
  | JVal.obj fs => JVal.obj (mergeFields (jsSpread (getAssoc res k)) fs)
  | x => x

/-- The merged object built by `loadConfig` before validation:
defaults, then env, then file values, then CLI overrides. -/
def mergedConfigData (defaults envCfg fileCfg cli : Obj) : Obj :=
  mergeFields (mergeFields (mergeFields defaults envCfg) fileCfg) cli

/-- One Zod field error as logged by `loadConfig`
(`err.path.join(".")` and `err.message`). -/
structure FieldErr where
  path : List String
  message : String

/-- JS `path.join(".")`. -/
def joinDot : List String → String
  | [] => ""
  | [s] => s
  | s :: rest => s ++ "." ++ joinDot rest

/-- Render one field error the way `loadConfig` logs it. -/
def fmtFieldErr (e : FieldErr) : String :=
  "- " ++ joinDot e.path ++ ": " ++ e.message

/-- `ConfigManager.loadConfig`, with schema validation abstracted as a
function from the raw object to either a validated object or a list of
field errors.  Returns the effective configuration together with the
error lines logged, or `Except.error` when even `schema.parse(defaults)`
throws (that exception escapes `loadConfig`). -/
def loadConfig (validate : Obj → Except (List FieldErr) Obj)
    (defaults envCfg fileCfg cli : Obj) :
    Except (List FieldErr) (Obj × List String) :=
  match validate (mergedConfigData defaults envCfg fileCfg cli) with
  | Except.ok v => Except.ok (v, [])
  | Except.error errs =>
    let logs := "Configuration validation error:" :: errs.map fmtFieldErr
    match validate defaults with
    | Except.ok d => Except.ok (d, logs)
    | Except.error errs2 => Except.error errs2

/-! ### `ConfigManager.loadFromFiles` -/

/-- A registered config loader (`canLoad` / `load` contract); `load`
models the JS loader that may throw. -/
structure Loader where
  canLoad : String → Bool
  load : String → Except String Obj

/-- `ConfigLoaderRegistry.getLoaderForFile`: first loader whose
`canLoad` accepts the path. -/
def getLoaderForFile (loaders : List Loader) (f : String) : Option Loader :=
  loaders.find? (fun l => l.canLoad f)

/-- `ConfigManager.loadFromFiles`, with the file system abstracted as an
existence predicate.  Returns the contributed object together with the
log lines, in order. -/
def loadFromFiles (fsExists : String → Bool) (loaders : List Loader) :
    List String → Obj × List String
  | [] => ([], [])
  | f :: rest =>
    if fsExists f then
      match getLoaderForFile loaders f with
      | none =>
        let r := loadFromFiles fsExists loaders rest
        (r.1, ("No loader found for config file: " ++ f) :: r.2)
      | some loader =>
        match loader.load f with
        | Except.ok cfg => (cfg, ["Loaded config from " ++ f])
        | Except.error msg =>
          let r := loadFromFiles fsExists loaders rest
          (r.1, ("Error loading config from " ++ f ++ ": " ++ msg) :: r.2)
    else loadFromFiles fsExists loaders rest

/-! ### Middleware (`MiddlewareBuilder.define` and the chain built in
`ActionBuilder.action`)

The execution context (`CommandContext`) and command metadata are
string-keyed records; contexts are extended copy-on-write via the JS
spread `{ ...ctx, ...options.ctx }`. -/

/-- The execution context threaded through middleware. -/
abbrev Ctx := List (String × JVal)

/-- Command metadata passed to each middleware. -/
abbrev Meta := List (String × JVal)

/-- A `Middleware` object as consumed by the chain: `execute` takes the
parsed input, the current context, the metadata and the downstream
handler, and produces a result. -/
def Mw (I R : Type) : Type := I → Ctx → Meta → (I → Ctx → R) → R

/-- `MiddlewareResult`: result paired with the (possibly extended)
context. -/
structure MwResult (R : Type) where
  result : R
  ctx : Ctx

/-- A `MiddlewareFunction`: receives input, context, metadata and the
`next` continuation (whose optional argument is the context patch). -/
def MwFn (I R : Type) : Type := I → Ctx → Meta → (Option Ctx → MwResult R) → MwResult R

/-- The JS shallow spread merge `{ ...a, ...b }` on records. -/
def shallowMerge (a b : Ctx) : Ctx :=
  b.foldl (fun acc kv => setAssoc acc kv.1 kv.2) a

/-- `MiddlewareBuilder.define(fn)`: wraps `fn` into a middleware whose
`next` merges the patch into the captured context, invokes the
downstream handler with the merged context, and pairs the handler result
with it; `execute` returns `result.result`. -/
def defineMw {I R : Type} (fn : MwFn I R) : Mw I R :=
  fun input ctx meta handler =>
    (fn input ctx meta (fun opts =>
      let newCtx := match opts with
        | some patch => shallowMerge ctx patch
        | none => ctx
      { result := handler input newCtx, ctx := newCtx })).result

/-- The recursive `applyMiddleware` closure of `ActionBuilder.action`:
past the end of the list it calls the terminal handler with the current
context; otherwise it runs the next middleware, whose downstream handler
updates the context and recurses.  The original parsed input is passed
down unchanged (the closure uses `args.parsedInput`). -/
def applyMiddleware {I R : Type} (meta : Meta) (input : I) (handler : I → Ctx → R) :
    List (Mw I R) → Ctx → R
  | [], ctx => handler input ctx
  | mw :: rest, ctx =>
    mw input ctx meta (fun _i ctx' => applyMiddleware meta input handler rest ctx')

/-- The `wrappedHandler` built by `ActionBuilder.action`: with no
middleware the handler is called directly, otherwise the chain is
applied starting from a copy of the invocation context. -/
def wrapHandler {I R : Type} (mws : List (Mw I R)) (meta : Meta) (handler : I → Ctx → R) :
    I → Ctx → R :=
  fun input ctx =>
    match mws with
    | [] => handler input ctx
    | _ => applyMiddleware meta input handler mws ctx

/-- A middleware function that appends its id to the `log` field of the
context and then calls `next` — the scenario of the middleware-ordering
property. -/
def appendLogFn {I R : Type} (id : String) : MwFn I R :=
  fun _input ctx _meta next =>
    let newLog : JVal :=
      match getAssoc ctx "log" with
      | some (JVal.arr xs) => JVal.arr (xs ++ [JVal.str id])
      | _ => JVal.arr [JVal.str id]
    next (some [("log", newLog)])

/-- A middleware function that never calls `next` and returns `r0`. -/
def shortCircuitFn {I R : Type} (r0 : R) : MwFn I R :=
  fun _input ctx _meta _next => { result := r0, ctx := ctx }

/-! ### The fluent `ActionBuilder` and `CommandDefinition` -/

/-- The mutable state of an `ActionBuilder`, generic over the middleware
representation `μ` and the schema representation `σ`. -/
structure ActionBuilder (μ σ : Type) where
  name : String := ""
  description : String := ""
  inputZodSchema : Option σ := none
  outputZodSchema : Option σ := none
  commandMetadata : List (String × JVal) := []
  commandAliases : List String := []
  commandExamples : List JVal := []
  parentCommand : Option String := none
  middlewareFunctions : List μ := []

/-- An immutable `CommandDefinition` as assembled by
`ActionBuilder.action`. -/
structure CommandDef (μ σ η : Type) where
  name : String
  description : String := ""
  inputSchema : σ
  outputSchema : Option σ := none
  metadata : Option (List (String × JVal)) := none
  handler : η
  aliases : List String := []
  parent : Option String := none
  middleware : Option (List μ) := none

namespace ActionBuilder

variable {μ σ η : Type}

/-- `ActionBuilder.input`: a fresh builder carrying all state forward
with the input schema replaced. -/
def input (b : ActionBuilder μ σ) (sch : σ) : ActionBuilder μ σ :=
  { b with inputZodSchema := some sch }

/-- `ActionBuilder.output`. -/
def output (b : ActionBuilder μ σ) (sch : σ) : ActionBuilder μ σ :=
  { b with outputZodSchema := some sch }

/-- `ActionBuilder.use`: a fresh builder with the existing middleware
copied and the new middleware pushed at the end. -/
def use (b : ActionBuilder μ σ) (m : μ) : ActionBuilder μ σ :=
  { b with middlewareFunctions := b.middlewareFunctions ++ [m] }

/-- Chained `use` calls, in order. -/
def useMany (b : ActionBuilder μ σ) (ms : List μ) : ActionBuilder μ σ :=
  ms.foldl use b

/-- `ActionBuilder.sub(name)` (string overload): child builder named
`parent:child` (or bare when the parent name is empty), with parent link
set, group metadata defaulted, and the parent middleware inherited by
copy. -/
def sub (b : ActionBuilder μ σ) (nm : String) : ActionBuilder μ σ :=
  { name := if b.name = "" then nm else b.name ++ ":" ++ nm
    description := ""
    inputZodSchema := none
    outputZodSchema := none
    commandMetadata := [("group", JVal.str "default")]
    commandAliases := []
    commandExamples := []
    parentCommand := some b.name
    middlewareFunctions := b.middlewareFunctions }

/-- `ActionBuilder.action(handler)`: fails without a name or input
schema; otherwise assembles the immutable definition, wrapping the
handler via the supplied middleware-chain wrapper (instantiated with
`wrapHandler` for executable middlewares). -/
def action (b : ActionBuilder μ σ)
    (wrap : List μ → List (String × JVal) → η → η) (h : η) :
    Except String (CommandDef μ σ η) :=
  if b.name = "" then Except.error "Command name is required"
  else
    match b.inputZodSchema with
    | none => Except.error "Command input schema is required"
    | some sch =>
      Except.ok
        { name := b.name
          description := b.description
          inputSchema := sch
          outputSchema := b.outputZodSchema
          metadata := if b.commandMetadata.isEmpty then none else some b.commandMetadata
          handler := wrap b.middlewareFunctions b.commandMetadata h
          aliases := b.commandAliases
          parent := b.parentCommand
          middleware :=
            if b.middlewareFunctions.isEmpty then none else some b.middlewareFunctions }

end ActionBuilder

/-! ### The Devtool alias table and `run` dispatch -/

/-- The scoped alias key: `command.parent ? parent:alias : alias`
(an empty parent string is falsy in JS). -/
def scopedAlias (parent : Option String) (al : String) : String :=
  match parent with
  | some p => if p = "" then al else p ++ ":" ++ al
  | none => al

/-- The inner `forEach` of the Devtool constructor's alias scan: insert
every alias of one command, scoped, targeting the command's name. -/
def insertAliases (name : String) (parent : Option String) :
    List String → List (String × String) → List (String × String)
  | [], acc => acc
  | al :: rest, acc =>
    insertAliases name parent rest (setAssoc acc (scopedAlias parent al) name)

/-- The alias-table scan of the `Devtool` constructor: for every
registered command, each alias is scoped under the parent (when the
parent is truthy) and inserted into the map with the command's internal
name as target. -/
def buildAliasesAux {μ σ η : Type} :
    List (String × CommandDef μ σ η) → List (String × String) → List (String × String)
  | [], acc => acc
  | nc :: rest, acc =>
    buildAliasesAux rest (insertAliases nc.1 nc.2.parent nc.2.aliases acc)

def buildAliases {μ σ η : Type} (cmds : List (String × CommandDef μ σ η)) :
    List (String × String) :=
  buildAliasesAux cmds []

/-- The observable outcome of `Devtool.run` for one argument vector. -/
inductive RunOutcome (μ σ η : Type)
  | helpGeneral
  | helpCommand (target : String)
  | versionOut
  | unknownCommand (cmd : String)
  | executed (key : String) (cmd : CommandDef μ σ η)

/-- The dispatch logic of `Devtool.run`: help and version short-circuit
before any registry lookup; otherwise the command is looked up directly,
then once more through the alias table (`aliases.get(command) || ""`),
and a hit hands the definition's handler the invocation. -/
def runDispatch {μ σ η : Type} (cmds : List (String × CommandDef μ σ η))
    (aliases : List (String × String)) (argv : List String) : RunOutcome μ σ η :=
  let pr := parseArgs aliases argv
  if pr.command = "help" then
    match getAssoc pr.options "command" with
    | some (OptVal.str t) => if t = "" then RunOutcome.helpGeneral else RunOutcome.helpCommand t
    | _ => RunOutcome.helpGeneral
  else if pr.command = "version" then RunOutcome.versionOut
  else
    match getAssoc cmds pr.command with
    | some c => RunOutcome.executed pr.command c
    | none =>
      let key2 :=
        match getAssoc aliases pr.command with
        | some t => if t = "" then "" else t
        | none => ""
      match getAssoc cmds key2 with
      | some c => RunOutcome.executed key2 c
      | none => RunOutcome.unknownCommand pr.command

/-! ## Helper lemmas -/

theorem getAssoc_setAssoc_self {α : Type} (m : List (String × α)) (k : String) (v : α) :
    getAssoc (setAssoc m k v) k = some v := by
  induction m with
  | nil => simp [setAssoc, getAssoc]
  | cons hd tl ih =>
    obtain ⟨k', v'⟩ := hd
    by_cases h : k' = k <;> simp [setAssoc, getAssoc, h, ih]

theorem getAssoc_setAssoc_ne {α : Type} (m : List (String × α)) (k' : String) (v : α)
    (k : String) (h : k' ≠ k) : getAssoc (setAssoc m k' v) k = getAssoc m k := by
  induction m with
  | nil => simp [setAssoc, getAssoc, h]
  | cons hd tl ih =>
    obtain ⟨k0, v0⟩ := hd
    by_cases h0 : k0 = k' <;> simp [setAssoc, getAssoc, h0, h, ih]

theorem getAssoc_setAssoc_cases {α : Type} (m : List (String × α)) (k' : String) (v : α)
    (k : String) (t : α) (h : getAssoc (setAssoc m k' v) k = some t) :
    (k = k' ∧ t = v) ∨ getAssoc m k = some t := by
  by_cases hk : k = k'
  · subst hk
    rw [getAssoc_setAssoc_self] at h
    exact Or.inl ⟨rfl, (Option.some.injEq _ _ ▸ h).symm⟩
  · right
    rw [getAssoc_setAssoc_ne m k' v k (fun he => hk he.symm)] at h
    exact h

theorem getAssoc_none_of_not_mem {α : Type} (m : List (String × α)) (k : String)
    (h : k ∉ m.map Prod.fst) : getAssoc m k = none := by
  induction m with
  | nil => rfl
  | cons hd tl ih =>
    obtain ⟨k0, v0⟩ := hd
    simp only [List.map_cons, List.mem_cons, not_or] at h
    have h1 : k0 ≠ k := fun he => h.1 he.symm
    simp [getAssoc, h1, ih h.2]

theorem exists_getAssoc_of_mem {α : Type} (m : List (String × α)) (kv : String × α)
    (h : kv ∈ m) : ∃ v', getAssoc m kv.1 = some v' := by
  induction m with
  | nil => cases h
  | cons hd tl ih =>
    by_cases he : hd.1 = kv.1
    · exact ⟨hd.2, by simp [getAssoc, he]⟩
    · rcases List.mem_cons.mp h with h1 | h2
      · exact absurd (congrArg Prod.fst h1.symm) he
      · simpa [getAssoc, he] using ih h2

theorem string_data_append (a b : String) : (a ++ b).data = a.data ++ b.data := by
  cases a; cases b; rfl

theorem append_colon_append_ne_empty (s t : String) : s ++ ":" ++ t ≠ "" := by
  intro h
  have hd := congrArg String.data h
  simp only [string_data_append] at hd
  have : (":" : String).data = [':'] := rfl
  simp [this] at hd

theorem joinSpace_cons_cons (p q : String) (ps : List String) :
    joinSpace (p :: q :: ps) = p ++ " " ++ joinSpace (q :: ps) := rfl

theorem space_mem_joinSpace (p q : String) (ps : List String) :
    ' ' ∈ (joinSpace (p :: q :: ps)).data := by
  rw [joinSpace_cons_cons, string_data_append, string_data_append]
  have : (" " : String).data = [' '] := rfl
  simp [this]

theorem colon_mem_collapseWsAux (l : List Char) (h : ∃ ch ∈ l, jsIsSpace ch = true) :
    ':' ∈ collapseWsAux false l := by
  induction l with
  | nil => simp at h
  | cons ch rest ih =>
    by_cases hs : jsIsSpace ch = true
    · simp [collapseWsAux, hs]
    · obtain ⟨ch', hmem, hch'⟩ := h
      rcases List.mem_cons.mp hmem with h1 | h2
      · exact absurd (h1 ▸ hch') hs
      · simp only [collapseWsAux, hs, Bool.false_eq_true, if_false]
        exact List.mem_cons_of_mem _ (ih ⟨ch', h2, hch'⟩)

/-- The guard `command === "help" && commandParts.length > 1` of
`parseArgs` can never hold: joining two or more segments always leaves a
separator that `toInternalCommandFormat` turns into a colon. -/
theorem toInternal_joinSpace_ne_help (parts : List String) (h : 1 < parts.length) :
    toInternalCommandFormat (joinSpace parts) ≠ "help" := by
  match parts, h with
  | p :: q :: ps, _ =>
    intro heq
    have hcolon : ':' ∈ (toInternalCommandFormat (joinSpace (p :: q :: ps))).data := by
      apply colon_mem_collapseWsAux
      exact ⟨' ', space_mem_joinSpace p q ps, rfl⟩
    rw [heq] at hcolon
    simp [show ("help" : String).data = ['h', 'e', 'l', 'p'] from rfl] at hcolon

theorem mergeFields_nil (res : Obj) : mergeFields res [] = res := by
  rw [mergeFields]

theorem mergeFields_cons (res : Obj) (k : String) (v : JVal) (rest : Obj) :
    mergeFields res ((k, v) :: rest) =
      mergeFields (setAssoc res k (mergeValInto res k v)) rest := by
  cases v <;> rw [mergeFields] <;> first | rfl | (intro fields heq; cases heq)

theorem mergeValInto_scalar (res : Obj) (k : String) (v : JVal)
    (h : isMergeableObj v = false) : mergeValInto res k v = v := by
  cases v <;> first | rfl | simp [isMergeableObj] at h

theorem getAssoc_mergeFields_absent (k : String) :
    ∀ s : Obj, getAssoc s k = none → ∀ t : Obj,
      getAssoc (mergeFields t s) k = getAssoc t k := by
  intro s
  induction s with
  | nil => intro _ t; rw [mergeFields_nil]
  | cons hd tl ih =>
    intro h t
    obtain ⟨k', v'⟩ := hd
    have hne : k' ≠ k := by
      intro he; subst he; simp [getAssoc] at h
    have htl : getAssoc tl k = none := by
      simpa [getAssoc, hne] using h
    rw [mergeFields_cons, ih htl]
    exact getAssoc_setAssoc_ne _ _ _ _ hne

theorem getAssoc_mergeFields_scalar (k : String) (v : JVal) (hv : isMergeableObj v = false) :
    ∀ s : Obj, (s.map Prod.fst).Nodup → getAssoc s k = some v → ∀ t : Obj,
      getAssoc (mergeFields t s) k = some v := by
  intro s
  induction s with
  | nil => intro _ h; simp [getAssoc] at h
  | cons hd tl ih =>
    intro hnd h t
    obtain ⟨k', v'⟩ := hd
    rw [List.map_cons, List.nodup_cons] at hnd
    by_cases hk : k' = k
    · subst hk
      have hv' : v' = v := by simpa [getAssoc] using h
      subst hv'
      have htl : getAssoc tl k' = none := getAssoc_none_of_not_mem tl k' hnd.1
      rw [mergeFields_cons, mergeValInto_scalar _ _ _ hv,
        getAssoc_mergeFields_absent k' tl htl]
      exact getAssoc_setAssoc_self _ _ _
    · have htl : getAssoc tl k = some v := by simpa [getAssoc, hk] using h
      rw [mergeFields_cons]
      exact ih hnd.2 htl _

/-! ## Claim theorems -/

/-- C1: after the command-path segments are consumed, the option loop
maps the remaining tokens as follows: `--key=value` binds the key to the
string value (split with limit 2); a `--key` token that is last or is
followed by another `--` token binds the key to boolean true; a `--key`
token followed by a plain token binds the key to that token as a string
and consumes it; no further coercion happens (witness the spec's `greet`
example where `World` stays a string and `--uppercase` becomes `true`). -/
theorem c1_option_tokenization :
    (∀ (m : List (String × OptVal)) (tok k v : String) (tl : List String)
        (rest : List String),
      strStartsWith tok "--" = true →
      strContainsEq (strDrop tok 2) = true →
      strSplitEq (strDrop tok 2) = k :: v :: tl →
      parseOptionsAux m (tok :: rest) = parseOptionsAux (setAssoc m k (OptVal.str v)) rest) ∧
    (∀ (m : List (String × OptVal)) (tok : String),
      strStartsWith tok "--" = true →
      strContainsEq (strDrop tok 2) = false →
      parseOptionsAux m [tok] = setAssoc m (strDrop tok 2) OptVal.boolTrue) ∧
    (∀ (m : List (String × OptVal)) (tok nxt : String) (rest : List String),
      strStartsWith tok "--" = true →
      strContainsEq (strDrop tok 2) = false →
      strStartsWith nxt "--" = true →
      parseOptionsAux m (tok :: nxt :: rest) =
        parseOptionsAux (setAssoc m (strDrop tok 2) OptVal.boolTrue) (nxt :: rest)) ∧
    (∀ (m : List (String × OptVal)) (tok nxt : String) (rest : List String),
      strStartsWith tok "--" = true →
      strContainsEq (strDrop tok 2) = false →
      strStartsWith nxt "--" = false →
      parseOptionsAux m (tok :: nxt :: rest) =
        parseOptionsAux (setAssoc m (strDrop tok 2) (OptVal.str nxt)) rest) ∧
    parseArgs [] ["node", "cli", "greet", "--name", "World", "--uppercase"] =
      { command := "greet",
        options := [("name", OptVal.str "World"), ("uppercase", OptVal.boolTrue)] } := by
  refine ⟨?_, ?_, ?_, ?_, by decide⟩
  · intro m tok k v tl rest h1 h2 h3
    conv_lhs => rw [parseOptionsAux.eq_def]
    simp only [h1, h2, h3, if_true, eq_self_iff_true, ite_true, List.headD_cons,
      List.drop_succ_cons, List.drop_zero]
  · intro m tok h1 h2
    conv_lhs => rw [parseOptionsAux.eq_def]
    simp only [h1, h2, if_true, if_false, eq_self_iff_true, Bool.false_eq_true, ite_true,
      ite_false]
  · intro m tok nxt rest h1 h2 h3
    conv_lhs => rw [parseOptionsAux.eq_def]
    simp only [h1, h2, h3, if_true, if_false, eq_self_iff_true, Bool.false_eq_true, ite_true,
      ite_false]
  · intro m tok nxt rest h1 h2 h3
    conv_lhs => rw [parseOptionsAux.eq_def]
    simp only [h1, h2, h3, if_true, if_false, eq_self_iff_true, Bool.false_eq_true, ite_true,
      ite_false]

theorem c1_option_tokenization_witness :
    parseOptionsAux [] ["--name=World"] = parseOptionsAux (setAssoc [] "name" (OptVal.str "World")) [] ∧
    parseOptionsAux [] ["--up"] = setAssoc [] "up" OptVal.boolTrue ∧
    parseOptionsAux [] ["--a", "--b"] =
      parseOptionsAux (setAssoc [] "a" OptVal.boolTrue) ["--b"] ∧
    parseOptionsAux [] ["--name", "World"] =
      parseOptionsAux (setAssoc [] "name" (OptVal.str "World")) [] :=
  ⟨c1_option_tokenization.1 [] "--name=World" "name" "World" [] [] rfl rfl rfl,
   c1_option_tokenization.2.1 [] "--up" rfl rfl,
   c1_option_tokenization.2.2.1 [] "--a" "--b" [] rfl rfl rfl,
   c1_option_tokenization.2.2.2.1 [] "--name" "World" [] rfl rfl rfl⟩

/-- C9: in a `--key=value` token whose value part itself contains `=`,
the loop binds the key only to the text between the first and second `=`
(the `split("=", 2)` discards the rest): in general the key binds to the
second element of the full split, and concretely `--k=a=b` yields
`{k: "a"}`, not `{k: "a=b"}`. -/
theorem c9_split_limit_two :
    (∀ (m : List (String × OptVal)) (tok k v c : String) (tl : List String)
        (rest : List String),
      strStartsWith tok "--" = true →
      strContainsEq (strDrop tok 2) = true →
      strSplitEq (strDrop tok 2) = k :: v :: c :: tl →
      parseOptionsAux m (tok :: rest) = parseOptionsAux (setAssoc m k (OptVal.str v)) rest) ∧
    parseOptionsAux [] ["--k=a=b"] = [("k", OptVal.str "a")] ∧
    parseOptionsAux [] ["--k=a=b"] ≠ [("k", OptVal.str "a=b")] := by
  refine ⟨?_, by decide, by decide⟩
  intro m tok k v c tl rest h1 h2 h3
  conv_lhs => rw [parseOptionsAux.eq_def]
  simp only [h1, h2, h3, if_true, eq_self_iff_true, ite_true, List.headD_cons,
    List.drop_succ_cons, List.drop_zero]

theorem c9_split_limit_two_witness :
    parseOptionsAux [] ["--k=a=b"] = parseOptionsAux (setAssoc [] "k" (OptVal.str "a")) [] :=
  c9_split_limit_two.1 [] "--k=a=b" "k" "a" "b" [] [] rfl rfl rfl

/-- C4 (code bug): `help <command> <subcommand>` is advertised but can
never trigger: the guard compares the already colon-joined path against
`"help"`, which fails whenever more than one segment was collected, so
`help greet` parses to command `help:greet` with empty options instead
of `help` with the target `greet`; the final conjunct shows the guard is
unsatisfiable for every argument vector. -/
theorem c4_help_target_branch_dead :
    parseArgs [] ["node", "cli", "help", "greet"] =
      { command := "help:greet", options := [] } ∧
    parseArgs [] ["node", "cli", "help", "greet"] ≠
      { command := "help", options := [("command", OptVal.str "greet")] } ∧
    ∀ parts : List String, 1 < parts.length →
      toInternalCommandFormat (joinSpace parts) ≠ "help" :=
  ⟨by decide, by decide, toInternal_joinSpace_ne_help⟩

theorem c4_help_target_branch_dead_witness :
    toInternalCommandFormat (joinSpace ["help", "greet"]) ≠ "help" :=
  c4_help_target_branch_dead.2.2 ["help", "greet"] (by decide)

/-- C5 as stated is false: `["node","cli","greet"]` has only one
meaningful argument after positions 0 and 1 (fewer than 2), yet the
tokenizer returns command `greet`, not `help`. -/
theorem c5_counterexample :
    (["node", "cli", "greet"].drop 2).length < 2 ∧
    parseArgs [] ["node", "cli", "greet"] ≠ { command := "help", options := [] } := by
  decide

/-- C5 (amended): only when there is no meaningful argument at all after
positions 0 and 1 (`argv.length < 3`) does the tokenizer short-circuit
to command `help` with an empty options map. -/
theorem c5_short_argv_help (aliases : List (String × String)) (argv : List String)
    (h : argv.length < 3) : parseArgs aliases argv = { command := "help", options := [] } := by
  unfold parseArgs
  rw [if_pos h]

theorem c5_short_argv_help_witness :
    parseArgs [] ["node", "cli"] = { command := "help", options := [] } :=
  c5_short_argv_help [] ["node", "cli"] (by decide)

/-- C2: the configuration is merged key-by-key in the order defaults,
environment, file, CLI overrides, later sources winning: a key set in
the CLI overrides resolves to the CLI value; without a CLI entry to the
file value; without a file entry to the environment value; without any
of those to the default; and `loadConfig` returns exactly this merged
object when it validates. -/
theorem c2_config_precedence :
    (∀ (d e f c : Obj) (k : String) (vc : JVal),
      (c.map Prod.fst).Nodup → getAssoc c k = some vc → isMergeableObj vc = false →
      getAssoc (mergedConfigData d e f c) k = some vc) ∧
    (∀ (d e f c : Obj) (k : String) (vf : JVal),
      (f.map Prod.fst).Nodup → getAssoc c k = none → getAssoc f k = some vf →
      isMergeableObj vf = false →
      getAssoc (mergedConfigData d e f c) k = some vf) ∧
    (∀ (d e f c : Obj) (k : String) (ve : JVal),
      (e.map Prod.fst).Nodup → getAssoc c k = none → getAssoc f k = none →
      getAssoc e k = some ve → isMergeableObj ve = false →
      getAssoc (mergedConfigData d e f c) k = some ve) ∧
    (∀ (d e f c : Obj) (k : String),
      getAssoc c k = none → getAssoc f k = none → getAssoc e k = none →
      getAssoc (mergedConfigData d e f c) k = getAssoc d k) ∧
    (∀ (validate : Obj → Except (List FieldErr) Obj) (d e f c : Obj),
      validate (mergedConfigData d e f c) = Except.ok (mergedConfigData d e f c) →
      loadConfig validate d e f c = Except.ok (mergedConfigData d e f c, [])) := by
  refine ⟨?_, ?_, ?_, ?_, ?_⟩
  · intro d e f c k vc hnd hc hvc
    exact getAssoc_mergeFields_scalar k vc hvc c hnd hc _
  · intro d e f c k vf hnd hc hf hvf
    unfold mergedConfigData
    rw [getAssoc_mergeFields_absent k c hc]
    exact getAssoc_mergeFields_scalar k vf hvf f hnd hf _
  · intro d e f c k ve hnd hc hf he hve
    unfold mergedConfigData
    rw [getAssoc_mergeFields_absent k c hc, getAssoc_mergeFields_absent k f hf]
    exact getAssoc_mergeFields_scalar k ve hve e hnd he _
  · intro d e f c k hc hf he
    unfold mergedConfigData
    rw [getAssoc_mergeFields_absent k c hc, getAssoc_mergeFields_absent k f hf,
      getAssoc_mergeFields_absent k e he]
  · intro validate d e f c hv
    unfold loadConfig
    rw [hv]

theorem c2_config_precedence_witness :
    getAssoc (mergedConfigData [("port", JVal.num 1)] [("port", JVal.num 2)]
      [("port", JVal.num 3)] [("port", JVal.num 4)]) "port" = some (JVal.num 4) ∧
    getAssoc (mergedConfigData [("port", JVal.num 1)] [("port", JVal.num 2)]
      [("port", JVal.num 3)] []) "port" = some (JVal.num 3) ∧
    getAssoc (mergedConfigData [("port", JVal.num 1)] [("port", JVal.num 2)] [] [])
      "port" = some (JVal.num 2) ∧
    getAssoc (mergedConfigData [("port", JVal.num 1)] [] [] []) "port" =
      getAssoc [("port", JVal.num 1)] "port" ∧
    loadConfig Except.ok [("port", JVal.num 1)] [] [] [] =
      Except.ok (mergedConfigData [("port", JVal.num 1)] [] [] [], []) :=
  ⟨c2_config_precedence.1 _ _ _ _ "port" _ (by decide) rfl rfl,
   c2_config_precedence.2.1 _ _ _ _ "port" _ (by decide) rfl rfl rfl,
   c2_config_precedence.2.2.1 _ _ _ _ "port" _ (by decide) rfl rfl rfl rfl,
   c2_config_precedence.2.2.2.1 _ _ _ _ "port" rfl rfl rfl,
   c2_config_precedence.2.2.2.2 Except.ok _ _ _ _ rfl⟩

/-- C6: when the fully merged object fails schema validation,
`loadConfig` logs the validation-error banner followed by one
`- path: message` line per field error, validates the defaults alone,
and returns that as the effective configuration without any exception
escaping. -/
theorem c6_validation_fallback (validate : Obj → Except (List FieldErr) Obj)
    (d e f c : Obj) (errs : List FieldErr) (dv : Obj)
    (hm : validate (mergedConfigData d e f c) = Except.error errs)
    (hd : validate d = Except.ok dv) :
    loadConfig validate d e f c =
      Except.ok (dv, "Configuration validation error:" :: errs.map fmtFieldErr) := by
  unfold loadConfig
  rw [hm]
  simp only []
  rw [hd]

theorem c6_validation_fallback_witness :
    loadConfig
      (fun o => match getAssoc o "bad" with
        | some _ => Except.error [{ path := ["server", "port"], message := "Expected number" }]
        | none => Except.ok o)
      [("port", JVal.num 1)] [] [] [("bad", JVal.bool true)] =
      Except.ok ([("port", JVal.num 1)],
        ["Configuration validation error:", "- server.port: Expected number"]) :=
  c6_validation_fallback
    (fun o => match getAssoc o "bad" with
      | some _ => Except.error [{ path := ["server", "port"], message := "Expected number" }]
      | none => Except.ok o)
    [("port", JVal.num 1)] [] [] [("bad", JVal.bool true)]
    [{ path := ["server", "port"], message := "Expected number" }]
    [("port", JVal.num 1)]
    (by
      have hmerged : mergedConfigData [("port", JVal.num 1)] [] [] [("bad", JVal.bool true)] =
          [("port", JVal.num 1), ("bad", JVal.bool true)] := by
        simp [mergedConfigData, mergeFields_nil, mergeFields_cons, mergeValInto, setAssoc]
      rw [hmerged]
      rfl)
    rfl

/-- C7: the file layer takes the first candidate that exists, has a
loader and loads successfully, never reading the remaining candidates; a
missing loader or a load error logs a warning and moves on to the next
candidate; a missing file is skipped silently; and with no successful
candidate the layer contributes an empty object. -/
theorem c7_first_match_config_file :
    (∀ (fsExists : String → Bool) (loaders : List Loader) (f : String)
        (rest : List String) (l : Loader) (cfg : Obj),
      fsExists f = true → getLoaderForFile loaders f = some l →
      l.load f = Except.ok cfg →
      loadFromFiles fsExists loaders (f :: rest) = (cfg, ["Loaded config from " ++ f])) ∧
    (∀ (fsExists : String → Bool) (loaders : List Loader) (f : String)
        (rest : List String),
      fsExists f = false →
      loadFromFiles fsExists loaders (f :: rest) = loadFromFiles fsExists loaders rest) ∧
    (∀ (fsExists : String → Bool) (loaders : List Loader) (f : String)
        (rest : List String),
      fsExists f = true → getLoaderForFile loaders f = none →
      loadFromFiles fsExists loaders (f :: rest) =
        ((loadFromFiles fsExists loaders rest).1,
          ("No loader found for config file: " ++ f) ::
            (loadFromFiles fsExists loaders rest).2)) ∧
    (∀ (fsExists : String → Bool) (loaders : List Loader) (f : String)
        (rest : List String) (l : Loader) (msg : String),
      fsExists f = true → getLoaderForFile loaders f = some l →
      l.load f = Except.error msg →
      loadFromFiles fsExists loaders (f :: rest) =
        ((loadFromFiles fsExists loaders rest).1,
          ("Error loading config from " ++ f ++ ": " ++ msg) ::
            (loadFromFiles fsExists loaders rest).2)) ∧
    (∀ (fsExists : String → Bool) (loaders : List Loader),
      loadFromFiles fsExists loaders [] = ([], [])) := by
  refine ⟨?_, ?_, ?_, ?_, fun _ _ => rfl⟩
  · intro fsExists loaders f rest l cfg h1 h2 h3
    conv_lhs => rw [loadFromFiles.eq_def]
    simp only [h1, h2, h3, if_true, eq_self_iff_true, ite_true]
  · intro fsExists loaders f rest h1
    conv_lhs => rw [loadFromFiles.eq_def]
    simp only [h1, Bool.false_eq_true, if_false, ite_false]
  · intro fsExists loaders f rest h1 h2
    conv_lhs => rw [loadFromFiles.eq_def]
    simp only [h1, h2, if_true, eq_self_iff_true, ite_true]
  · intro fsExists loaders f rest l msg h1 h2 h3
    conv_lhs => rw [loadFromFiles.eq_def]
    simp only [h1, h2, h3, if_true, eq_self_iff_true, ite_true]

theorem c7_first_match_config_file_witness :
    loadFromFiles (fun f => f == "a.json" || f == "b.json")
      [{ canLoad := fun f => f == "a.json" || f == "b.json",
         load := fun f => if f == "a.json" then Except.ok [("x", JVal.num 1)]
                          else Except.error "boom" }]
      ["missing.json", "a.json", "b.json"] =
      ([("x", JVal.num 1)], ["Loaded config from a.json"]) := by
  rw [c7_first_match_config_file.2.1 (fun f => f == "a.json" || f == "b.json")
      [{ canLoad := fun f => f == "a.json" || f == "b.json",
         load := fun f => if f == "a.json" then Except.ok [("x", JVal.num 1)]
                          else Except.error "boom" }]
      "missing.json" ["a.json", "b.json"] rfl,
    c7_first_match_config_file.1 (fun f => f == "a.json" || f == "b.json")
      [{ canLoad := fun f => f == "a.json" || f == "b.json",
         load := fun f => if f == "a.json" then Except.ok [("x", JVal.num 1)]
                          else Except.error "boom" }]
      "a.json" ["b.json"]
      { canLoad := fun f => f == "a.json" || f == "b.json",
        load := fun f => if f == "a.json" then Except.ok [("x", JVal.num 1)]
                         else Except.error "boom" }
      [("x", JVal.num 1)] rfl rfl rfl]
  rfl

/-- C3: with middleware sequence `[M1, M2]` each appending its id to the
shared `log` context field before calling `next`, the terminal handler
runs last and observes the log in order `[M1, M2]` (each patch visible
downstream); a middleware that never calls `next` yields its own result
as the command result, and neither the downstream middlewares nor the
handler can influence it (they never run). -/
theorem c3_middleware_chain {I R : Type} :
    (∀ (h : I → Ctx → R) (meta : Meta) (input : I) (ctx0 : Ctx),
      getAssoc ctx0 "log" = some (JVal.arr []) →
      ∃ ctx' : Ctx,
        wrapHandler [defineMw (appendLogFn "M1"), defineMw (appendLogFn "M2")]
          meta h input ctx0 = h input ctx' ∧
        getAssoc ctx' "log" = some (JVal.arr [JVal.str "M1", JVal.str "M2"])) ∧
    (∀ (r0 : R) (ms2 : List (Mw I R)) (h : I → Ctx → R) (meta : Meta) (input : I)
        (ctx : Ctx),
      wrapHandler (defineMw (shortCircuitFn r0) :: ms2) meta h input ctx = r0) ∧
    (∀ (r0 : R) (h h' : I → Ctx → R) (meta : Meta) (input : I) (ctx : Ctx),
      wrapHandler [defineMw (appendLogFn "M1"), defineMw (shortCircuitFn r0),
          defineMw (appendLogFn "M2")] meta h input ctx = r0 ∧
      wrapHandler [defineMw (appendLogFn "M1"), defineMw (shortCircuitFn r0),
          defineMw (appendLogFn "M2")] meta h input ctx =
        wrapHandler [defineMw (appendLogFn "M1"), defineMw (shortCircuitFn r0),
          defineMw (appendLogFn "M2")] meta h' input ctx) := by
  refine ⟨?_, ?_, ?_⟩
  · intro h meta input ctx0 hlog
    refine ⟨setAssoc (setAssoc ctx0 "log" (JVal.arr [JVal.str "M1"])) "log"
      (JVal.arr [JVal.str "M1", JVal.str "M2"]), ?_, ?_⟩
    · simp only [wrapHandler, applyMiddleware, defineMw, appendLogFn, shallowMerge,
        List.foldl_cons, List.foldl_nil, hlog, List.nil_append,
        getAssoc_setAssoc_self, List.cons_append]
    · exact getAssoc_setAssoc_self _ _ _
  · intro r0 ms2 h meta input ctx
    rfl
  · intro r0 h h' meta input ctx
    exact ⟨rfl, rfl⟩

theorem c3_middleware_chain_witness :
    ∃ ctx' : Ctx,
      wrapHandler [defineMw (appendLogFn "M1"), defineMw (appendLogFn "M2")]
        [] (fun (_ : Unit) (c : Ctx) => getAssoc c "log") () [("log", JVal.arr [])] =
        (fun (_ : Unit) (c : Ctx) => getAssoc c "log") () ctx' ∧
      getAssoc ctx' "log" = some (JVal.arr [JVal.str "M1", JVal.str "M2"]) :=
  c3_middleware_chain.1 (fun (_ : Unit) (c : Ctx) => getAssoc c "log") [] ()
    [("log", JVal.arr [])] rfl

/-- C8: a subcommand builder created via `sub("x")` from a builder named
`a` is internally named `a:x`, inherits `a`'s middleware at the point of
`sub` as a prefix of its own sequence (middlewares added afterwards
follow), and the finalized command definition carries that name and
middleware sequence. -/
theorem c8_sub_naming_and_middleware {μ σ η : Type} (a : ActionBuilder μ σ) (x : String)
    (ms : List μ) (sch : σ) (wrap : List μ → List (String × JVal) → η → η) (h : η)
    (hname : a.name ≠ "") :
    (((a.sub x).input sch).useMany ms).name = a.name ++ ":" ++ x ∧
    (((a.sub x).input sch).useMany ms).middlewareFunctions =
      a.middlewareFunctions ++ ms ∧
    a.middlewareFunctions <+: (((a.sub x).input sch).useMany ms).middlewareFunctions ∧
    ∃ d : CommandDef μ σ η,
      (((a.sub x).input sch).useMany ms).action wrap h = Except.ok d ∧
      d.name = a.name ++ ":" ++ x ∧
      d.middleware = (if (a.middlewareFunctions ++ ms).isEmpty then none
        else some (a.middlewareFunctions ++ ms)) := by
  have husename : ∀ (b : ActionBuilder μ σ) (l : List μ), (b.useMany l).name = b.name := by
    intro b l
    induction l generalizing b with
    | nil => rfl
    | cons m tl ih => exact ih (b.use m)
  have huseschema : ∀ (b : ActionBuilder μ σ) (l : List μ),
      (b.useMany l).inputZodSchema = b.inputZodSchema := by
    intro b l
    induction l generalizing b with
    | nil => rfl
    | cons m tl ih => exact ih (b.use m)
  have husemws : ∀ (b : ActionBuilder μ σ) (l : List μ),
      (b.useMany l).middlewareFunctions = b.middlewareFunctions ++ l := by
    intro b l
    induction l generalizing b with
    | nil => simp [ActionBuilder.useMany]
    | cons m tl ih =>
      show ((b.use m).useMany tl).middlewareFunctions = _
      rw [ih (b.use m)]
      simp [ActionBuilder.use]
  have hbname : (((a.sub x).input sch).useMany ms).name = a.name ++ ":" ++ x := by
    rw [husename]
    simp [ActionBuilder.input, ActionBuilder.sub, hname]
  have hbmws : (((a.sub x).input sch).useMany ms).middlewareFunctions =
      a.middlewareFunctions ++ ms := by
    rw [husemws]
    simp [ActionBuilder.input, ActionBuilder.sub]
  have hbsch : (((a.sub x).input sch).useMany ms).inputZodSchema = some sch := by
    rw [huseschema]
    simp [ActionBuilder.input]
  refine ⟨hbname, hbmws, hbmws ▸ List.prefix_append _ _, ?_⟩
  have hact : (((a.sub x).input sch).useMany ms).action wrap h = Except.ok
      { name := (((a.sub x).input sch).useMany ms).name
        description := (((a.sub x).input sch).useMany ms).description
        inputSchema := sch
        outputSchema := (((a.sub x).input sch).useMany ms).outputZodSchema
        metadata := if (((a.sub x).input sch).useMany ms).commandMetadata.isEmpty then none
          else some (((a.sub x).input sch).useMany ms).commandMetadata
        handler := wrap (((a.sub x).input sch).useMany ms).middlewareFunctions
          (((a.sub x).input sch).useMany ms).commandMetadata h
        aliases := (((a.sub x).input sch).useMany ms).commandAliases
        parent := (((a.sub x).input sch).useMany ms).parentCommand
        middleware := if (((a.sub x).input sch).useMany ms).middlewareFunctions.isEmpty
          then none else some (((a.sub x).input sch).useMany ms).middlewareFunctions } := by
    unfold ActionBuilder.action
    rw [if_neg (by rw [hbname]; exact append_colon_append_ne_empty a.name x), hbsch]
  refine ⟨_, hact, hbname, ?_⟩
  show (if (((a.sub x).input sch).useMany ms).middlewareFunctions.isEmpty then none
    else some (((a.sub x).input sch).useMany ms).middlewareFunctions) = _
  rw [hbmws]

theorem c8_sub_naming_and_middleware_witness :
    (((({ name := "user", middlewareFunctions := [0] } :
        ActionBuilder Nat Unit).sub "create").input ()).useMany [1]).name = "user:create" ∧
    (((({ name := "user", middlewareFunctions := [0] } :
        ActionBuilder Nat Unit).sub "create").input ()).useMany [1]).middlewareFunctions =
      [0, 1] ∧
    [0] <+: (((({ name := "user", middlewareFunctions := [0] } :
        ActionBuilder Nat Unit).sub "create").input ()).useMany [1]).middlewareFunctions ∧
    ∃ d : CommandDef Nat Unit Unit,
      (((({ name := "user", middlewareFunctions := [0] } :
          ActionBuilder Nat Unit).sub "create").input ()).useMany [1]).action
        (fun _ _ hh => hh) () = Except.ok d ∧
      d.name = "user:create" ∧
      d.middleware = (if (([0] : List Nat) ++ [1]).isEmpty then none
        else some (([0] : List Nat) ++ [1])) :=
  c8_sub_naming_and_middleware { name := "user", middlewareFunctions := [0] }
    "create" [1] () (fun _ _ hh => hh) () (by decide)

theorem insertAliases_target_invariant {μ σ η : Type}
    (cmds : List (String × CommandDef μ σ η)) (name : String) (parent : Option String)
    (hname : ∃ c, getAssoc cmds name = some c) :
    ∀ (als : List String) (acc : List (String × String)),
      (∀ p t, getAssoc acc p = some t → ∃ c, getAssoc cmds t = some c) →
      ∀ p t, getAssoc (insertAliases name parent als acc) p = some t →
        ∃ c, getAssoc cmds t = some c := by
  intro als
  induction als with
  | nil => intro acc hinv p t h; exact hinv p t h
  | cons al rest ih =>
    intro acc hinv p t h
    refine ih _ ?_ p t h
    intro p' t' h'
    rcases getAssoc_setAssoc_cases _ _ _ _ _ h' with ⟨_, ht⟩ | hacc
    · exact ht ▸ hname
    · exact hinv p' t' hacc

theorem buildAliasesAux_target_invariant {μ σ η : Type}
    (cmds : List (String × CommandDef μ σ η)) :
    ∀ (l : List (String × CommandDef μ σ η)) (acc : List (String × String)),
      (∀ nc, nc ∈ l → ∃ c, getAssoc cmds nc.1 = some c) →
      (∀ p t, getAssoc acc p = some t → ∃ c, getAssoc cmds t = some c) →
      ∀ p t, getAssoc (buildAliasesAux l acc) p = some t →
        ∃ c, getAssoc cmds t = some c := by
  intro l
  induction l with
  | nil => intro acc _ hinv p t h; exact hinv p t h
  | cons nc rest ih =>
    intro acc hmem hinv p t h
    refine ih _ (fun nc' hm => hmem nc' (List.mem_cons_of_mem _ hm)) ?_ p t h
    exact insertAliases_target_invariant cmds nc.1 nc.2.parent
      (hmem nc (List.mem_cons_self _ _)) nc.2.aliases acc hinv

/-- Every target stored in the Devtool alias table is the internal name
of a registered command. -/
theorem buildAliases_target_registered {μ σ η : Type}
    (cmds : List (String × CommandDef μ σ η)) (p t : String)
    (h : getAssoc (buildAliases cmds) p = some t) : ∃ c, getAssoc cmds t = some c := by
  refine buildAliasesAux_target_invariant cmds cmds []
    (fun nc hm => exists_getAssoc_of_mem cmds nc hm) ?_ p t h
  intro p' t' h'
  simp [getAssoc] at h'

/-- The command returned by `parseArgs` is `help`, `version`, a string
with no (or an empty) alias entry, or a nonempty alias target. -/
theorem parseArgs_command_shape (aliases : List (String × String)) (argv : List String)
    (cmd : String) (opts : List (String × OptVal))
    (h : parseArgs aliases argv = { command := cmd, options := opts }) :
    cmd = "help" ∨ cmd = "version" ∨
    getAssoc aliases cmd = none ∨ getAssoc aliases cmd = some "" ∨
    (∃ p t, getAssoc aliases p = some t ∧ t ≠ "" ∧ cmd = t) := by
  unfold parseArgs at h
  dsimp only at h
  split at h
  · cases h; left; rfl
  · split at h
    · cases h; left; rfl
    · split at h
      · cases h; right; left; rfl
      · split at h
        · cases h; left; rfl
        · rcases hA : getAssoc aliases
              (toInternalCommandFormat (joinSpace
                ((argv.drop 2).takeWhile fun t => !strStartsWith t "--"))) with _ | t
          · rw [hA] at h
            dsimp only at h
            cases h
            right; right; left
            exact hA
          · rw [hA] at h
            dsimp only at h
            by_cases ht : t = ""
            · rw [if_pos ht] at h
              cases h
              right; right; right; left
              exact ht ▸ hA
            · rw [if_neg ht] at h
              cases h
              right; right; right; right
              exact ⟨_, _, hA, ht, rfl⟩

/-- C10: `run` never invokes a handler stored in the registry under the
internal name `help` or `version`: a resolved command equal to either is
short-circuited to the built-in help rendering or version printout
before command lookup, so every executed lookup key differs from both
names (the pre-registered or user-overwritten `help`/`version` handlers
are unreachable through `run`). -/
theorem c10_run_shields_help_version {μ σ η : Type}
    (cmds : List (String × CommandDef μ σ η)) (argv : List String) (k : String)
    (c : CommandDef μ σ η)
    (h : runDispatch cmds (buildAliases cmds) argv = RunOutcome.executed k c) :
    k ≠ "help" ∧ k ≠ "version" := by
  unfold runDispatch at h
  dsimp only at h
  split at h
  case isTrue =>
    split at h
    · split at h <;> exact RunOutcome.noConfusion h
    · exact RunOutcome.noConfusion h
  case isFalse hhelp =>
    split at h
    case isTrue => exact RunOutcome.noConfusion h
    case isFalse hver =>
      split at h
      case h_1 c1 heq1 =>
        cases h
        exact ⟨hhelp, hver⟩
      case h_2 heq1 =>
        rcases parseArgs_command_shape (buildAliases cmds) argv
            ((parseArgs (buildAliases cmds) argv).command)
            ((parseArgs (buildAliases cmds) argv).options) rfl with
          hc | hc | hc | hc | ⟨p, t, hp, htne, hct⟩
        · exact absurd hc hhelp
        · exact absurd hc hver
        · rw [hc] at h
          dsimp only at h
          split at h
          · cases h
            exact ⟨by decide, by decide⟩
          · exact RunOutcome.noConfusion h
        · rw [hc] at h
          dsimp only at h
          rw [ite_self] at h
          split at h
          · cases h
            exact ⟨by decide, by decide⟩
          · exact RunOutcome.noConfusion h
        · rcases buildAliases_target_registered cmds p t hp with ⟨c0, hc0⟩
          rw [← hct] at hc0
          rw [heq1] at hc0
          exact Option.noConfusion hc0

theorem c10_run_shields_help_version_witness :
    ("greet" : String) ≠ "help" ∧ ("greet" : String) ≠ "version" :=
  c10_run_shields_help_version
    [("greet", ({ name := "greet", inputSchema := (), handler := () } :
      CommandDef Unit Unit Unit))]
    ["node", "cli", "greet"] "greet"
    { name := "greet", inputSchema := (), handler := () } rfl

end ZodCommand
